import Mathlib

/-!
Verification of the road-analyzer geometric core.

This file gives a shallow embedding (over exact rationals) of the geometry
kernel, the boundary clipper, the intersection graph builder of
src/lib/road-analyzer.ts, and of the binarization / skeletonization stages of
src/lib/image-road-analyzer.ts, together with theorems settling the frozen
claims about them.  Coordinates are `ℚ × ℚ` in (longitude, latitude) order,
exactly as the source stores them.
-/

attribute [local semireducible] Rat.add Rat.mul Rat.inv Rat.sub

/-- A coordinate pair `[lon, lat]`, as stored in GeoJSON positions. -/
abbrev Pos := ℚ × ℚ

/-- The geometry variants the analyzed code distinguishes
(`geometry.type` of a GeoJSON feature). A `polygon` carries its list of
rings; the code only ever reads `coordinates[0]`, the outer ring. -/
inductive Geometry where
  | lineString (coords : List Pos)
  | point (p : Pos)
  | polygon (rings : List (List Pos))
deriving DecidableEq, Repr

/-- A GeoJSON feature, restricted to the fields the analyzed functions read:
the (possibly absent) `id`, the geometry, and the two properties touched by
the intersection builder (`properties.isIntersection`,
`properties.connectedRoads`).  Road ids may be `undefined` in JS, hence
`Option ℤ`. -/
structure Feature where
  fid : Option ℤ
  geom : Geometry
  isIntersection : Bool
  connectedRoads : List (Option ℤ)
deriving DecidableEq, Repr

/-- Placeholder for out-of-range array reads; the algorithms never read it on
the inputs the theorems quantify over. -/
def dummyFeature : Feature := ⟨none, Geometry.point (0, 0), false, []⟩

instance : Inhabited Feature := ⟨dummyFeature⟩

/-- The `1e-10` parallelism cutoff of `lineSegmentIntersection`. -/
def epsDenom : ℚ := 1 / 10000000000

/-- The `0.00001` tolerance of `updateRoadWithIntersection`. -/
def tol : ℚ := 1 / 100000

/-- `lineSegmentIntersection` (src/lib/road-analyzer.ts:305-331): parametric
intersection of the finite segments `p1p2` and `p3p4`; `none` when the
determinant is below the parallelism cutoff or the parameters leave `[0,1]`. -/
def lineSegmentIntersection (p1 p2 p3 p4 : Pos) : Option Pos :=
  let x1 := p1.1; let y1 := p1.2
  let x2 := p2.1; let y2 := p2.2
  let x3 := p3.1; let y3 := p3.2
  let x4 := p4.1; let y4 := p4.2
  let denom := (x1 - x2) * (y3 - y4) - (y1 - y2) * (x3 - x4)
  if |denom| < epsDenom then none
  else
    let t := ((x1 - x3) * (y3 - y4) - (y1 - y3) * (x3 - x4)) / denom
    let u := -((x1 - x2) * (y1 - y3) - (y1 - y2) * (x1 - x3)) / denom
    if 0 ≤ t ∧ t ≤ 1 ∧ 0 ≤ u ∧ u ≤ 1 then
      some (x1 + t * (x2 - x1), y1 + t * (y2 - y1))
    else none

/-- The determinant `denom = (x1-x2)(y3-y4) - (y1-y2)(x3-x4)` named by the
spec. -/
def segDenom (p1 p2 p3 p4 : Pos) : ℚ :=
  (p1.1 - p2.1) * (p3.2 - p4.2) - (p1.2 - p2.2) * (p3.1 - p4.1)

/-- The parameter `t` of the intersection along `p1p2`. -/
def segT (p1 p2 p3 p4 : Pos) : ℚ :=
  ((p1.1 - p3.1) * (p3.2 - p4.2) - (p1.2 - p3.2) * (p3.1 - p4.1)) /
    segDenom p1 p2 p3 p4

/-- The parameter `u` of the intersection along `p3p4`. -/
def segU (p1 p2 p3 p4 : Pos) : ℚ :=
  -((p1.1 - p2.1) * (p1.2 - p3.2) - (p1.2 - p2.2) * (p1.1 - p3.1)) /
    segDenom p1 p2 p3 p4

/-- C2: `lineSegmentIntersection` returns `none` whenever `|denom| < 1e-10`;
otherwise it returns the point `p1 + t (p2 - p1)` exactly when both
parameters `t` and `u` lie in `[0,1]` inclusive.  In particular it returns
`none` for the parallel segments `(0,0)-(1,0)` and `(0,1)-(1,1)`, and
`some (1,1)` for the crossing segments `(0,0)-(2,2)` and `(0,2)-(2,0)`. -/
theorem c2_lineSegmentIntersection_spec (p1 p2 p3 p4 : Pos) :
    (|segDenom p1 p2 p3 p4| < epsDenom →
      lineSegmentIntersection p1 p2 p3 p4 = none) ∧
    (epsDenom ≤ |segDenom p1 p2 p3 p4| →
      lineSegmentIntersection p1 p2 p3 p4 =
        if 0 ≤ segT p1 p2 p3 p4 ∧ segT p1 p2 p3 p4 ≤ 1 ∧
            0 ≤ segU p1 p2 p3 p4 ∧ segU p1 p2 p3 p4 ≤ 1 then
          some (p1.1 + segT p1 p2 p3 p4 * (p2.1 - p1.1),
                p1.2 + segT p1 p2 p3 p4 * (p2.2 - p1.2))
        else none) ∧
    lineSegmentIntersection (0, 0) (1, 0) (0, 1) (1, 1) = none ∧
    lineSegmentIntersection (0, 0) (2, 2) (0, 2) (2, 0) = some (1, 1) := by
  refine ⟨?_, ?_, by decide, by decide⟩
  · intro h
    simp only [lineSegmentIntersection, segDenom] at h ⊢
    rw [if_pos h]
  · intro h
    simp only [lineSegmentIntersection, segDenom, segT, segU] at h ⊢
    rw [if_neg (not_lt.mpr h)]

/-- Concrete instantiation of `c2_lineSegmentIntersection_spec`: for the
crossing segments the determinant hypothesis holds and the theorem yields
`some (1,1)`. -/
theorem c2_lineSegmentIntersection_spec_witness :
    epsDenom ≤ |segDenom (0, 0) (2, 2) (0, 2) (2, 0)| ∧
    lineSegmentIntersection (0, 0) (2, 2) (0, 2) (2, 0) = some (1, 1) := by
  constructor
  · decide
  · have h := (c2_lineSegmentIntersection_spec (0, 0) (2, 2) (0, 2) (2, 0)).2.1
      (by decide)
    rw [h]; decide

/-- One edge test of the ray-casting loop of `isPointInPolygon`
(src/lib/road-analyzer.ts:153): `((yi > y) !== (yj > y)) &&
(x < (xj - xi) * (y - yi) / (yj - yi) + xi)`. -/
def edgeCross (x y xi yi xj yj : ℚ) : Bool :=
  (decide (yi > y) != decide (yj > y)) &&
    decide (x < (xj - xi) * (y - yi) / (yj - yi) + xi)

/-- `isPointInPolygon` (src/lib/road-analyzer.ts:145-159): even-odd
ray-casting over the ring's edges, visiting `(i, j)` pairs
`(0, n-1), (1, 0), ..., (n-1, n-2)`. -/
def isPointInPolygon (p : Pos) (polygon : List Pos) : Bool :=
  (List.range polygon.length).foldl
    (fun inside i =>
      let a := polygon.getD i (0, 0)
      let b := polygon.getD ((i + polygon.length - 1) % polygon.length) (0, 0)
      if edgeCross p.1 p.2 a.1 a.2 b.1 b.2 then !inside else inside)
    false

/-- `isPolygonGeom f` is the `geometry.type === "Polygon"` test. -/
def isPolygonGeom (f : Feature) : Bool :=
  match f.geom with
  | Geometry.polygon _ => true
  | _ => false

/-- The outer ring (`geometry.coordinates[0]`) of a polygon feature. -/
def outerRing (f : Feature) : Option (List Pos) :=
  match f.geom with
  | Geometry.polygon rings => rings.head?
  | _ => none

/-- The per-boundary-polygon scan of `clipRoadsToBoundary`
(src/lib/road-analyzer.ts:105-121), with its guards: missing outer ring or a
ring of fewer than 3 vertices is skipped. -/
def polygonScan (coords : List Pos) (bf : Feature) : Bool :=
  match bf.geom with
  | Geometry.polygon rings =>
    match rings.head? with
    | some ring =>
      if ring.length < 3 then false
      else coords.any (fun c => isPointInPolygon c ring)
    | none => false
  | _ => false

/-- The `hasIntersection` flag computed for one road. -/
def roadHasInsidePoint (boundaryPolygons : List Feature) (coords : List Pos) : Bool :=
  boundaryPolygons.any (polygonScan coords)

/-- The per-road body of the `roads.forEach` loop of `clipRoadsToBoundary`:
non-`LineString` features are skipped (`return`), an included road is pushed
rebuilt with the same id, coordinates and (spread) properties. -/
def clipKeep (boundaryPolygons : List Feature) (road : Feature) : Option Feature :=
  match road.geom with
  | Geometry.lineString coords =>
    if roadHasInsidePoint boundaryPolygons coords then
      some { fid := road.fid, geom := Geometry.lineString coords,
             isIntersection := road.isIntersection,
             connectedRoads := road.connectedRoads }
    else none
  | _ => none

/-- `clipRoadsToBoundary` (src/lib/road-analyzer.ts:87-140): keep a
`LineString` feature whole iff one of its coordinates lies inside a boundary
polygon; other geometry types are skipped; with no boundary polygon the roads
are returned unchanged. -/
def clipRoadsToBoundary (roads boundary : List Feature) : List Feature :=
  let boundaryPolygons := boundary.filter isPolygonGeom
  if boundaryPolygons.isEmpty then roads
  else roads.filterMap (clipKeep boundaryPolygons)

/-- C7: with no Polygon feature in the region, the boundary clipper is the
identity on its input feature list. -/
theorem c7_clip_no_polygon_identity (roads boundary : List Feature)
    (h : ∀ b ∈ boundary, isPolygonGeom b = false) :
    clipRoadsToBoundary roads boundary = roads := by
  have hf : boundary.filter isPolygonGeom = [] := by
    rw [List.filter_eq_nil_iff]
    intro b hb
    simp [h b hb]
  simp [clipRoadsToBoundary, hf]

/-- Concrete instantiation of `c7_clip_no_polygon_identity` on a region with
a single Point feature. -/
theorem c7_clip_no_polygon_identity_witness :
    (∀ b ∈ [dummyFeature], isPolygonGeom b = false) ∧
    clipRoadsToBoundary [dummyFeature] [dummyFeature] = [dummyFeature] :=
  ⟨by decide, c7_clip_no_polygon_identity [dummyFeature] [dummyFeature] (by decide)⟩

/-- The two edge tests of the ray-casting formula agree when the edge's two
endpoints are swapped. -/
theorem edgeCross_symm (x y xi yi xj yj : ℚ) :
    edgeCross x y xi yi xj yj = edgeCross x y xj yj xi yi := by
  unfold edgeCross
  by_cases hi : yi > y <;> by_cases hj : yj > y
  · simp [hi, hj]
  · have hlt : yj < yi := lt_of_le_of_lt (not_lt.mp hj) hi
    have h1 : yj - yi ≠ 0 := sub_ne_zero.mpr (ne_of_lt hlt)
    have h2 : yi - yj ≠ 0 := sub_ne_zero.mpr (ne_of_gt hlt)
    have key : (xj - xi) * (y - yi) / (yj - yi) + xi =
        (xi - xj) * (y - yj) / (yi - yj) + xj := by
      field_simp
      ring
    simp [hi, hj, key]
  · have hlt : yi < yj := lt_of_le_of_lt (not_lt.mp hi) hj
    have h1 : yj - yi ≠ 0 := sub_ne_zero.mpr (ne_of_gt hlt)
    have h2 : yi - yj ≠ 0 := sub_ne_zero.mpr (ne_of_lt hlt)
    have key : (xj - xi) * (y - yi) / (yj - yi) + xi =
        (xi - xj) * (y - yj) / (yi - yj) + xj := by
      field_simp
      ring
    simp [hi, hj, key]
  · simp [hi, hj]

/-- A degenerate ring of fewer than 3 vertices never contains a point: the
ray-casting loop flips the parity an even number of times. -/
theorem isPointInPolygon_short (p : Pos) (ring : List Pos)
    (h : ring.length < 3) : isPointInPolygon p ring = false := by
  match ring with
  | [] => rfl
  | [a] =>
    have hr : List.range ([a] : List Pos).length = [0] := rfl
    simp only [isPointInPolygon, hr, List.foldl_cons, List.foldl_nil]
    norm_num [List.getD]
    simp [edgeCross]
  | [a, b] =>
    have hr : List.range ([a, b] : List Pos).length = [0, 1] := rfl
    simp only [isPointInPolygon, hr, List.foldl_cons, List.foldl_nil]
    norm_num [List.getD]
    rw [← edgeCross_symm p.1 p.2 a.1 a.2 b.1 b.2]
    cases hE : edgeCross p.1 p.2 a.1 a.2 b.1 b.2 <;> simp [hE]
  | a :: b :: c :: rest =>
    simp only [List.length_cons] at h
    omega

/-- Membership of a point in the outer ring of a boundary feature (the
notion of "inside a boundary polygon" used by the claims). -/
def insideOuterRingB (bf : Feature) (c : Pos) : Bool :=
  match outerRing bf with
  | some ring => isPointInPolygon c ring
  | none => false

/-- The guards of the polygon scan (missing ring, ring shorter than 3) skip
only polygons that contain no point anyway. -/
theorem polygonScan_eq (coords : List Pos) (bf : Feature) :
    polygonScan coords bf = coords.any (fun c => insideOuterRingB bf c) := by
  unfold polygonScan insideOuterRingB outerRing
  cases hg : bf.geom with
  | lineString c => simp
  | point p => simp
  | polygon rings =>
    cases rings with
    | nil => simp
    | cons ring rest =>
      by_cases hlen : ring.length < 3
      · simp only [List.head?_cons, if_pos hlen]
        have : ∀ c : Pos, isPointInPolygon c ring = false :=
          fun c => isPointInPolygon_short c ring hlen
        simp [this]
      · simp [hlen]

/-- Two nested `any`s commute. -/
theorem any_any_swap {α β : Type _} (l : List α) (m : List β) (f : α → β → Bool) :
    l.any (fun a => m.any (f a)) = m.any (fun b => l.any (fun a => f a b)) := by
  apply Bool.coe_iff_coe.mp
  simp only [List.any_eq_true]
  tauto

/-- The `hasIntersection` scan over the filtered polygon list says exactly:
some road coordinate lies inside some boundary feature's outer ring. -/
theorem roadHasInsidePoint_filter (boundary : List Feature) (coords : List Pos) :
    roadHasInsidePoint (boundary.filter isPolygonGeom) coords =
      coords.any (fun c => boundary.any (fun bf => insideOuterRingB bf c)) := by
  unfold roadHasInsidePoint
  rw [List.any_filter]
  have h1 : ∀ bf, (isPolygonGeom bf && polygonScan coords bf) = polygonScan coords bf := by
    intro bf
    cases hg : bf.geom <;> simp [isPolygonGeom, polygonScan, hg]
  simp only [h1]
  simp only [polygonScan_eq]
  exact any_any_swap boundary coords (fun bf c => insideOuterRingB bf c)

/-- The spec-side inclusion test for one road: some coordinate of a
`LineString` lies inside some boundary polygon. -/
def roadTouches (boundary : List Feature) (road : Feature) : Bool :=
  match road.geom with
  | Geometry.lineString coords =>
    coords.any (fun c => boundary.any (fun bf => insideOuterRingB bf c))
  | _ => false

/-- `clipKeep` keeps exactly the roads passing `roadTouches`, unchanged. -/
theorem clipKeep_eq (boundary : List Feature) (road : Feature) :
    clipKeep (boundary.filter isPolygonGeom) road =
      if roadTouches boundary road then some road else none := by
  obtain ⟨fid, geom, isInt, conn⟩ := road
  cases geom with
  | lineString coords =>
    simp only [clipKeep, roadTouches]
    rw [roadHasInsidePoint_filter]
  | point p => rfl
  | polygon r => rfl

/-- `filterMap` with a keep-or-drop function is a `filter`. -/
theorem filterMap_keep {α : Type _} (p : α → Bool) (l : List α) :
    l.filterMap (fun a => if p a then some a else none) = l.filter p := by
  induction l with
  | nil => rfl
  | cons a l ih =>
    cases hp : p a <;> simp [List.filterMap_cons, List.filter_cons, hp, ih]

/-- C5: with at least one Polygon in the region, the clipper returns exactly
the `LineString` features having a coordinate inside some boundary polygon,
each kept whole (the output is a `filter` of the input list, so every
included feature keeps its entire coordinate sequence unchanged). -/
theorem c5_clip_keeps_touching_roads (roads boundary : List Feature)
    (h : ∃ b ∈ boundary, isPolygonGeom b = true) :
    clipRoadsToBoundary roads boundary = roads.filter (roadTouches boundary) ∧
    ∀ road, roadTouches boundary road = true ↔
      ∃ coords, road.geom = Geometry.lineString coords ∧
        ∃ c ∈ coords, ∃ bf ∈ boundary, ∃ ring,
          outerRing bf = some ring ∧ isPointInPolygon c ring = true := by
  constructor
  · have hne : (boundary.filter isPolygonGeom).isEmpty = false := by
      obtain ⟨b, hb, hp⟩ := h
      have hmem : b ∈ boundary.filter isPolygonGeom := List.mem_filter.mpr ⟨hb, hp⟩
      cases hfe : (boundary.filter isPolygonGeom) with
      | nil => rw [hfe] at hmem; cases hmem
      | cons x xs => simp [hfe]
    unfold clipRoadsToBoundary
    simp only [hne, Bool.false_eq_true, if_false]
    have hfun : clipKeep (boundary.filter isPolygonGeom) =
        fun road => if roadTouches boundary road then some road else none :=
      funext (clipKeep_eq boundary)
    rw [hfun, filterMap_keep]
  · intro road
    unfold roadTouches
    cases hg : road.geom with
    | lineString coords =>
      simp only [List.any_eq_true]
      constructor
      · rintro ⟨c, hc, bf, hbf, hin⟩
        refine ⟨coords, rfl, c, hc, bf, hbf, ?_⟩
        unfold insideOuterRingB at hin
        cases ho : outerRing bf with
        | none => rw [ho] at hin; cases hin
        | some ring => rw [ho] at hin; exact ⟨ring, rfl, hin⟩
      · rintro ⟨coords', hco, c, hc, bf, hbf, ring, hring, hin⟩
        cases hco
        refine ⟨c, hc, bf, hbf, ?_⟩
        unfold insideOuterRingB
        rw [hring]
        exact hin
    | point p =>
      simp only [Bool.false_eq_true, false_iff]
      rintro ⟨coords', hco, _⟩
      cases hco
    | polygon r =>
      simp only [Bool.false_eq_true, false_iff]
      rintro ⟨coords', hco, _⟩
      cases hco

/-- A square boundary ring used by the concrete instances. -/
def sqRing : List Pos := [(0, 0), (2, 0), (2, 2), (0, 2)]

/-- A Polygon boundary feature with outer ring `sqRing`. -/
def sqBoundary : Feature := ⟨some 10, Geometry.polygon [sqRing], false, []⟩

/-- A road with one coordinate inside the square. -/
def roadInSquare : Feature := ⟨some 1, Geometry.lineString [(1, 1), (5, 5)], false, []⟩

/-- Concrete instantiation of `c5_clip_keeps_touching_roads`: one boundary
polygon, one road with a coordinate inside it, which the clipper keeps. -/
theorem c5_clip_keeps_touching_roads_witness :
    (∃ b ∈ [sqBoundary], isPolygonGeom b = true) ∧
    clipRoadsToBoundary [roadInSquare] [sqBoundary] = [roadInSquare] := by
  constructor
  · exact ⟨sqBoundary, by decide, by decide⟩
  · rw [(c5_clip_keeps_touching_roads [roadInSquare] [sqBoundary]
      ⟨sqBoundary, by decide, by decide⟩).1]
    decide

/-- Every feature in the output of `clipRoadsToBoundary` is a `LineString`
(provided a boundary polygon exists, so that the filter branch runs). -/
theorem mem_clip_isLineString (roads boundary : List Feature) (f : Feature)
    (h : ∃ b ∈ boundary, isPolygonGeom b = true)
    (hmem : f ∈ clipRoadsToBoundary roads boundary) :
    ∃ c, f.geom = Geometry.lineString c := by
  rw [(c5_clip_keeps_touching_roads roads boundary h).1] at hmem
  have hp := List.of_mem_filter hmem
  obtain ⟨coords, hg, _⟩ := ((c5_clip_keeps_touching_roads roads boundary h).2 f).mp hp
  exact ⟨coords, hg⟩

/-- The filter predicate of the image-pipeline clipper
(src/lib/image-road-analyzer.ts:633-647): `LineString`s by any-coordinate
inclusion, `Point`s by point inclusion, anything else dropped. -/
def imageClipPred (boundaryCoords : List Pos) (f : Feature) : Bool :=
  match f.geom with
  | Geometry.lineString coords => coords.any (fun c => isPointInPolygon c boundaryCoords)
  | Geometry.point p => isPointInPolygon p boundaryCoords
  | _ => false

/-- `clipRoadsToBoundary` of src/lib/image-road-analyzer.ts:625-649: takes a
single boundary feature; a non-Polygon boundary returns the input unchanged;
otherwise filters against the outer ring `coordinates[0]`. -/
def imageClipRoadsToBoundary (features : List Feature) (boundaryFeature : Feature) :
    List Feature :=
  match boundaryFeature.geom with
  | Geometry.polygon rings => features.filter (imageClipPred (rings.headD []))
  | _ => features

/-- A Point feature at `(1,1)`, inside the square boundary. -/
def ptFeat : Feature := ⟨none, Geometry.point (1, 1), false, []⟩

/-- C6 counterexample: the vector-path clipper of src/lib/road-analyzer.ts
drops every non-`LineString` feature (line 98), so a Point feature lying
inside a boundary polygon is NOT included, contrary to the claim. -/
theorem c6_counterexample :
    isPointInPolygon (1, 1) sqRing = true ∧
    clipRoadsToBoundary [ptFeat] [sqBoundary] = [] := by
  constructor <;> decide

/-- C6 (amended): the image-pipeline clipper includes a Point feature iff it
lies inside the boundary polygon's outer ring; the vector-path clipper
(road-analyzer.ts) never emits a Point feature at all when a boundary
polygon is present. -/
theorem c6_point_clip_amended (feats : List Feature) (bf : Feature)
    (ring : List Pos) (rest : List (List Pos)) (p : Pos) (f : Feature)
    (hb : bf.geom = Geometry.polygon (ring :: rest))
    (hf : f.geom = Geometry.point p) :
    (f ∈ imageClipRoadsToBoundary feats bf ↔
      f ∈ feats ∧ isPointInPolygon p ring = true) ∧
    ∀ roads boundary : List Feature, (∃ b ∈ boundary, isPolygonGeom b = true) →
      f ∉ clipRoadsToBoundary roads boundary := by
  constructor
  · unfold imageClipRoadsToBoundary
    rw [hb]
    simp only [List.headD_cons, List.mem_filter]
    have hpred : imageClipPred ring f = isPointInPolygon p ring := by
      unfold imageClipPred
      rw [hf]
    rw [hpred]
  · intro roads boundary hpoly hmem
    obtain ⟨c, hc⟩ := mem_clip_isLineString roads boundary f hpoly hmem
    rw [hf] at hc
    cases hc

/-- Concrete instantiation of `c6_point_clip_amended`: the interior point
feature is kept by the image-pipeline clipper. -/
theorem c6_point_clip_amended_witness :
    sqBoundary.geom = Geometry.polygon (sqRing :: []) ∧
    ptFeat.geom = Geometry.point (1, 1) ∧
    ptFeat ∈ imageClipRoadsToBoundary [ptFeat] sqBoundary := by
  refine ⟨rfl, rfl, ?_⟩
  exact ((c6_point_clip_amended [ptFeat] sqBoundary sqRing [] (1, 1) ptFeat rfl
    rfl).1).mpr ⟨by decide, by decide⟩

/-- `Math.min` as the code applies it. -/
def qmin (a b : ℚ) : ℚ := if a ≤ b then a else b

/-- `Math.max` as the code applies it. -/
def qmax (a b : ℚ) : ℚ := if a ≤ b then b else a

/-- The bounding box record returned by `getBoundingBox`. -/
structure BBox where
  north : ℚ
  south : ℚ
  east : ℚ
  west : ℚ
deriving DecidableEq, Repr

/-- The coordinates one feature contributes to the bounding-box scan
(src/lib/road-analyzer.ts:181-207): the outer ring of a Polygon, the single
coordinate of a Point, nothing otherwise. -/
def coordsOfFeature (f : Feature) : List Pos :=
  match f.geom with
  | Geometry.polygon rings => rings.headD []
  | Geometry.point p => [p]
  | _ => []

/-- One min/max update of the bounding-box scan.  The `none` state is the
untouched `±Infinity` initial state of the source. -/
def bboxStep (st : Option (ℚ × ℚ × ℚ × ℚ)) (c : Pos) : Option (ℚ × ℚ × ℚ × ℚ) :=
  match st with
  | none => some (c.1, c.1, c.2, c.2)
  | some (mnLon, mxLon, mnLat, mxLat) =>
      some (qmin mnLon c.1, qmax mxLon c.1, qmin mnLat c.2, qmax mxLat c.2)

/-- `getBoundingBox` (src/lib/road-analyzer.ts:165-220): fails (`none`
models the thrown error) on an empty feature list or when no Polygon/Point
coordinate is ever scanned (the `minLat === +Infinity` check); otherwise
returns the running min/max extremes. -/
def getBoundingBox (feats : List Feature) : Option BBox :=
  if feats = [] then none
  else
    match feats.foldl (fun st f => (coordsOfFeature f).foldl bboxStep st) none with
    | none => none
    | some (mnLon, mxLon, mnLat, mxLat) => some ⟨mxLat, mnLat, mxLon, mnLon⟩

/-- Folding over a `flatMap` is the nested fold. -/
theorem foldl_flatMap {α β σ : Type _} (l : List α) (g : α → List β)
    (f : σ → β → σ) (a : σ) :
    (l.flatMap g).foldl f a = l.foldl (fun a x => (g x).foldl f a) a := by
  induction l generalizing a with
  | nil => rfl
  | cons x l ih => simp [List.foldl_append, ih]

/-- The bounding-box fold from a `some` state tracks componentwise
min/max folds. -/
theorem bboxStep_foldl_some (cs : List Pos) (a b d e : ℚ) :
    cs.foldl bboxStep (some (a, b, d, e)) =
      some ((cs.map Prod.fst).foldl qmin a, (cs.map Prod.fst).foldl qmax b,
            (cs.map Prod.snd).foldl qmin d, (cs.map Prod.snd).foldl qmax e) := by
  induction cs generalizing a b d e with
  | nil => rfl
  | cons c cs ih => simp [bboxStep, ih]

/-- The start value bounds a `qmax` fold from below. -/
theorem le_foldl_qmax (l : List ℚ) (a : ℚ) : a ≤ l.foldl qmax a := by
  induction l generalizing a with
  | nil => simp
  | cons x l ih =>
    refine le_trans ?_ (ih (qmax a x))
    unfold qmax
    split <;> simp_all

/-- The start value bounds a `qmin` fold from above. -/
theorem foldl_qmin_le (l : List ℚ) (a : ℚ) : l.foldl qmin a ≤ a := by
  induction l generalizing a with
  | nil => simp
  | cons x l ih =>
    refine le_trans (ih (qmin a x)) ?_
    unfold qmin
    split <;> simp_all <;> linarith

/-- C3: `getBoundingBox` fails exactly when the region has zero features or
no feature contributes a coordinate; otherwise it returns the min/max
extremes over all Polygon outer-ring and Point coordinates, and the result
satisfies `north ≥ south` and `east ≥ west`. -/
theorem c3_getBoundingBox_spec (feats : List Feature) :
    (getBoundingBox feats = none ↔
      feats = [] ∨ feats.flatMap coordsOfFeature = []) ∧
    (∀ c cs, feats.flatMap coordsOfFeature = c :: cs →
      getBoundingBox feats =
        some ⟨(cs.map Prod.snd).foldl qmax c.2, (cs.map Prod.snd).foldl qmin c.2,
              (cs.map Prod.fst).foldl qmax c.1, (cs.map Prod.fst).foldl qmin c.1⟩ ∧
      ∀ b, getBoundingBox feats = some b → b.south ≤ b.north ∧ b.west ≤ b.east) := by
  constructor
  · by_cases hf : feats = []
    · simp [getBoundingBox, hf]
    · unfold getBoundingBox
      rw [if_neg hf, ← foldl_flatMap]
      cases hflat : feats.flatMap coordsOfFeature with
      | nil => simp [hf, hflat]
      | cons c cs =>
        rw [List.foldl_cons]
        have hstep : bboxStep none c = some (c.1, c.1, c.2, c.2) := rfl
        rw [hstep, bboxStep_foldl_some]
        simp [hf, hflat]
  · intro c cs hflat
    have hf : feats ≠ [] := by
      intro h0
      rw [h0] at hflat
      cases hflat
    have hval : getBoundingBox feats =
        some ⟨(cs.map Prod.snd).foldl qmax c.2, (cs.map Prod.snd).foldl qmin c.2,
              (cs.map Prod.fst).foldl qmax c.1, (cs.map Prod.fst).foldl qmin c.1⟩ := by
      unfold getBoundingBox
      rw [if_neg hf, ← foldl_flatMap, hflat, List.foldl_cons]
      have hstep : bboxStep none c = some (c.1, c.1, c.2, c.2) := rfl
      rw [hstep, bboxStep_foldl_some]
    refine ⟨hval, ?_⟩
    intro b hb
    rw [hval] at hb
    cases hb
    constructor
    · exact le_trans (foldl_qmin_le _ _) (le_foldl_qmax _ _)
    · exact le_trans (foldl_qmin_le _ _) (le_foldl_qmax _ _)

/-- Concrete instantiation of `c3_getBoundingBox_spec` on the square
boundary region: the flattened coordinate hypothesis holds and the computed
box is well-ordered. -/
theorem c3_getBoundingBox_spec_witness :
    ([sqBoundary].flatMap coordsOfFeature = (0, 0) :: [(2, 0), (2, 2), (0, 2)]) ∧
    ∃ b, getBoundingBox [sqBoundary] = some b ∧ b.south ≤ b.north ∧ b.west ≤ b.east := by
  have h := (c3_getBoundingBox_spec [sqBoundary]).2 (0, 0) [(2, 0), (2, 2), (0, 2)]
    (by decide)
  exact ⟨by decide, ⟨_, h.1, h.2 _ h.1⟩⟩

/-- One RGBA pixel of the `ImageData` buffer (the binarization loop reads
`data[i]` at stride 4, i.e. the red channel). -/
structure RGBA where
  r : ℚ
  g : ℚ
  b : ℚ
  a : ℚ
deriving DecidableEq, Repr

/-- The binarization step of `detectAndVectorizeRoads`
(src/lib/image-road-analyzer.ts:283-290): threshold `255 * (1 - sensitivity)`,
foreground (`255`) iff the intensity strictly exceeds it, else `0`. -/
def binarize (pixels : List RGBA) (sensitivity : ℚ) : List ℚ :=
  pixels.map (fun px => if px.r > 255 * (1 - sensitivity) then (255 : ℚ) else 0)

/-- C8: a pixel is foreground iff its intensity exceeds the threshold
`255 * (1 - sensitivity)`, and the foreground set is monotone in the
sensitivity: whatever is foreground at `s1 ≤ s2` is foreground at `s2`. -/
theorem c8_binarize_monotone (pixels : List RGBA) (s1 s2 : ℚ) (i : ℕ) :
    (∀ s, i < pixels.length →
      ((binarize pixels s).getD i 0 = 255 ↔
        (pixels.getD i ⟨0, 0, 0, 0⟩).r > 255 * (1 - s))) ∧
    (s1 ≤ s2 → (binarize pixels s1).getD i 0 = 255 →
      (binarize pixels s2).getD i 0 = 255) := by
  have hval : ∀ s : ℚ, i < pixels.length →
      (binarize pixels s).getD i 0 =
        (if (pixels.getD i ⟨0, 0, 0, 0⟩).r > 255 * (1 - s) then (255 : ℚ) else 0) := by
    intro s hi
    unfold binarize
    rw [List.getD_eq_getElem?_getD, List.getElem?_map]
    rw [List.getElem?_eq_getElem hi]
    simp [List.getD_eq_getElem?_getD, List.getElem?_eq_getElem hi]
  constructor
  · intro s hi
    rw [hval s hi]
    split <;> rename_i hcond
    · simp only [List.getD_eq_getElem?_getD] at hcond
      simp [hcond]
    · simp only [OfNat.zero_ne_ofNat, false_iff]
      exact hcond
  · intro hs h1
    have hi : i < pixels.length := by
      by_contra hge
      have hnone : (binarize pixels s1).getD i 0 = 0 := by
        unfold binarize
        rw [List.getD_eq_getElem?_getD, List.getElem?_map]
        rw [List.getElem?_eq_none (by simpa [binarize] using not_lt.mp hge)]
        rfl
      rw [hnone] at h1
      exact absurd h1 (by norm_num)
    rw [hval s1 hi] at h1
    rw [hval s2 hi]
    by_cases hc : (pixels.getD i ⟨0, 0, 0, 0⟩).r > 255 * (1 - s1)
    · have : (pixels.getD i ⟨0, 0, 0, 0⟩).r > 255 * (1 - s2) := by nlinarith
      rw [if_pos this]
    · rw [if_neg hc] at h1
      exact absurd h1 (by norm_num)

/-- Concrete instantiation of `c8_binarize_monotone`: a pixel of intensity
200 is foreground at sensitivity 1/2 and stays foreground at 3/4. -/
theorem c8_binarize_monotone_witness :
    (1 : ℚ) / 2 ≤ 3 / 4 ∧
    (binarize [⟨200, 200, 200, 255⟩] (1 / 2)).getD 0 0 = 255 ∧
    (binarize [⟨200, 200, 200, 255⟩] (3 / 4)).getD 0 0 = 255 := by
  have h1 : (binarize [⟨200, 200, 200, 255⟩] (1 / 2)).getD 0 0 = 255 := by decide
  exact ⟨by norm_num,
    h1,
    (c8_binarize_monotone [⟨200, 200, 200, 255⟩] (1 / 2) (3 / 4) 0).2
      (by norm_num) h1⟩

/-- The eight neighbor values read by `skeletonize`
(src/lib/image-road-analyzer.ts:345-349), in source order. -/
def neighborVals (d : List ℚ) (w x y : ℕ) : List ℚ :=
  [d.getD ((y - 1) * w + (x - 1)) 0, d.getD ((y - 1) * w + x) 0,
   d.getD ((y - 1) * w + (x + 1)) 0,
   d.getD (y * w + (x - 1)) 0, d.getD (y * w + (x + 1)) 0,
   d.getD ((y + 1) * w + (x - 1)) 0, d.getD ((y + 1) * w + x) 0,
   d.getD ((y + 1) * w + (x + 1)) 0]

/-- `whiteNeighbors` of `skeletonize`: how many of the eight reads are 255. -/
def whiteNeighbors (d : List ℚ) (w x y : ℕ) : ℕ :=
  (neighborVals d w x y).countP (fun v => decide (v = 255))

/-- `skeletonize` (src/lib/image-road-analyzer.ts:335-364): copy of the
input where each interior foreground pixel survives iff its white-neighbor
count lies in `[2,6]`; the one-pixel border (and every background pixel) is
left as copied. -/
def skeletonize (d : List ℚ) (w h : ℕ) : List ℚ :=
  (List.range d.length).map (fun idx =>
    let x := idx % w
    let y := idx / w
    if 1 ≤ y ∧ y + 1 < h ∧ 1 ≤ x ∧ x + 1 < w ∧ d.getD idx 0 = 255 then
      if 2 ≤ whiteNeighbors d w x y ∧ whiteNeighbors d w x y ≤ 6 then (255 : ℚ)
      else 0
    else d.getD idx 0)


/-- Foreground indicator of pixel `(x, y)` in a `w × h` image: 1 iff the
pixel exists (inside the image) and holds 255. -/
def fgAt (d : List ℚ) (w h : ℕ) (x y : ℤ) : ℕ :=
  if 0 ≤ x ∧ x < (w : ℤ) ∧ 0 ≤ y ∧ y < (h : ℤ) ∧
      d.getD (y.toNat * w + x.toNat) 0 = 255 then 1 else 0

/-- The true 8-neighborhood foreground count of pixel `(x, y)`: neighbors
outside the image do not count. -/
def fgNeighborCount (d : List ℚ) (w h : ℕ) (x y : ℤ) : ℕ :=
  fgAt d w h (x - 1) (y - 1) + fgAt d w h x (y - 1) + fgAt d w h (x + 1) (y - 1) +
  fgAt d w h (x - 1) y + fgAt d w h (x + 1) y +
  fgAt d w h (x - 1) (y + 1) + fgAt d w h x (y + 1) + fgAt d w h (x + 1) (y + 1)

/-- C9 counterexample: in a 1×1 image the single foreground pixel has zero
foreground neighbors (outside `[2,6]`), yet it survives skeletonization,
because the loop only visits interior pixels. -/
theorem c9_counterexample :
    skeletonize [(255 : ℚ)] 1 1 = [255] ∧
    fgNeighborCount [(255 : ℚ)] 1 1 0 0 < 2 := by
  constructor <;> decide

/-- For an interior pixel all eight neighbors are in bounds, and the eight
reads of `skeletonize` are exactly its 8-neighborhood, so the code's
white-neighbor count equals the true neighborhood count. -/
theorem fgNeighborCount_interior (d : List ℚ) (w h x y : ℕ)
    (hx1 : 1 ≤ x) (hx2 : x + 1 < w) (hy1 : 1 ≤ y) (hy2 : y + 1 < h) :
    fgNeighborCount d w h x y = whiteNeighbors d w x y := by
  have r1 : fgAt d w h ((x : ℤ) - 1) ((y : ℤ) - 1) =
      if d.getD ((y - 1) * w + (x - 1)) 0 = 255 then 1 else 0 := by
    unfold fgAt
    rw [show ((y : ℤ) - 1).toNat = y - 1 by omega, show ((x : ℤ) - 1).toNat = x - 1 by omega]
    exact if_congr ⟨fun hp => hp.2.2.2.2,
      fun hp => ⟨by omega, by omega, by omega, by omega, hp⟩⟩ rfl rfl
  have r2 : fgAt d w h (x : ℤ) ((y : ℤ) - 1) =
      if d.getD ((y - 1) * w + x) 0 = 255 then 1 else 0 := by
    unfold fgAt
    rw [show ((y : ℤ) - 1).toNat = y - 1 by omega, show ((x : ℤ)).toNat = x by omega]
    exact if_congr ⟨fun hp => hp.2.2.2.2,
      fun hp => ⟨by omega, by omega, by omega, by omega, hp⟩⟩ rfl rfl
  have r3 : fgAt d w h ((x : ℤ) + 1) ((y : ℤ) - 1) =
      if d.getD ((y - 1) * w + (x + 1)) 0 = 255 then 1 else 0 := by
    unfold fgAt
    rw [show ((y : ℤ) - 1).toNat = y - 1 by omega, show ((x : ℤ) + 1).toNat = x + 1 by omega]
    exact if_congr ⟨fun hp => hp.2.2.2.2,
      fun hp => ⟨by omega, by omega, by omega, by omega, hp⟩⟩ rfl rfl
  have r4 : fgAt d w h ((x : ℤ) - 1) (y : ℤ) =
      if d.getD (y * w + (x - 1)) 0 = 255 then 1 else 0 := by
    unfold fgAt
    rw [show ((y : ℤ)).toNat = y by omega, show ((x : ℤ) - 1).toNat = x - 1 by omega]
    exact if_congr ⟨fun hp => hp.2.2.2.2,
      fun hp => ⟨by omega, by omega, by omega, by omega, hp⟩⟩ rfl rfl
  have r5 : fgAt d w h ((x : ℤ) + 1) (y : ℤ) =
      if d.getD (y * w + (x + 1)) 0 = 255 then 1 else 0 := by
    unfold fgAt
    rw [show ((y : ℤ)).toNat = y by omega, show ((x : ℤ) + 1).toNat = x + 1 by omega]
    exact if_congr ⟨fun hp => hp.2.2.2.2,
      fun hp => ⟨by omega, by omega, by omega, by omega, hp⟩⟩ rfl rfl
  have r6 : fgAt d w h ((x : ℤ) - 1) ((y : ℤ) + 1) =
      if d.getD ((y + 1) * w + (x - 1)) 0 = 255 then 1 else 0 := by
    unfold fgAt
    rw [show ((y : ℤ) + 1).toNat = y + 1 by omega, show ((x : ℤ) - 1).toNat = x - 1 by omega]
    exact if_congr ⟨fun hp => hp.2.2.2.2,
      fun hp => ⟨by omega, by omega, by omega, by omega, hp⟩⟩ rfl rfl
  have r7 : fgAt d w h (x : ℤ) ((y : ℤ) + 1) =
      if d.getD ((y + 1) * w + x) 0 = 255 then 1 else 0 := by
    unfold fgAt
    rw [show ((y : ℤ) + 1).toNat = y + 1 by omega, show ((x : ℤ)).toNat = x by omega]
    exact if_congr ⟨fun hp => hp.2.2.2.2,
      fun hp => ⟨by omega, by omega, by omega, by omega, hp⟩⟩ rfl rfl
  have r8 : fgAt d w h ((x : ℤ) + 1) ((y : ℤ) + 1) =
      if d.getD ((y + 1) * w + (x + 1)) 0 = 255 then 1 else 0 := by
    unfold fgAt
    rw [show ((y : ℤ) + 1).toNat = y + 1 by omega, show ((x : ℤ) + 1).toNat = x + 1 by omega]
    exact if_congr ⟨fun hp => hp.2.2.2.2,
      fun hp => ⟨by omega, by omega, by omega, by omega, hp⟩⟩ rfl rfl
  unfold fgNeighborCount whiteNeighbors neighborVals
  rw [r1, r2, r3, r4, r5, r6, r7, r8]
  simp only [List.countP_cons, List.countP_nil, decide_eq_true_eq]
  omega

/-- Pointwise characterization of `skeletonize`. -/
theorem skeletonize_getD (d : List ℚ) (w h : ℕ) (i : ℕ) (hi : i < d.length) :
    (skeletonize d w h).getD i 0 =
      if 1 ≤ i / w ∧ i / w + 1 < h ∧ 1 ≤ i % w ∧ i % w + 1 < w ∧
          d.getD i 0 = 255 then
        if 2 ≤ whiteNeighbors d w (i % w) (i / w) ∧
            whiteNeighbors d w (i % w) (i / w) ≤ 6 then (255 : ℚ)
        else 0
      else d.getD i 0 := by
  unfold skeletonize
  rw [List.getD_eq_getElem?_getD, List.getElem?_map, List.getElem?_range hi]
  rfl

/-- C9 (amended): an INTERIOR foreground pixel survives skeletonization iff
its 8-neighborhood foreground count lies in `[2,6]`; pixels on the one-pixel
border are merely copied (see `c9_counterexample`), so the original claim
holds only away from the border. -/
theorem c9_skeletonize_interior_amended (d : List ℚ) (w h x y : ℕ)
    (hlen : d.length = w * h)
    (hx1 : 1 ≤ x) (hx2 : x + 1 < w) (hy1 : 1 ≤ y) (hy2 : y + 1 < h)
    (hfg : d.getD (y * w + x) 0 = 255) :
    (skeletonize d w h).getD (y * w + x) 0 = 255 ↔
      2 ≤ fgNeighborCount d w h x y ∧ fgNeighborCount d w h x y ≤ 6 := by
  have hi : y * w + x < d.length := by
    rw [hlen]
    calc y * w + x < y * w + w := by omega
      _ = (y + 1) * w := by ring
      _ ≤ h * w := Nat.mul_le_mul_right w (by omega)
      _ = w * h := Nat.mul_comm h w
  have hmod : (y * w + x) % w = x := by
    rw [Nat.add_comm, Nat.add_mul_mod_self_right, Nat.mod_eq_of_lt (by omega)]
  have hdiv : (y * w + x) / w = y := by
    rw [Nat.add_comm, Nat.add_mul_div_right _ _ (by omega : 0 < w),
      Nat.div_eq_of_lt (by omega), Nat.zero_add]
  rw [skeletonize_getD d w h _ hi, hmod, hdiv,
    if_pos ⟨hy1, hy2, hx1, hx2, hfg⟩,
    fgNeighborCount_interior d w h x y hx1 hx2 hy1 hy2]
  constructor
  · intro hs
    by_contra hc
    rw [if_neg hc] at hs
    norm_num at hs
  · intro hc
    rw [if_pos hc]

/-- A 3×3 test image: foreground at (0,0), (0,1), (1,1), (1,2). -/
def img9 : List ℚ := [255, 0, 0, 255, 255, 0, 0, 255, 0]

/-- Concrete instantiation of `c9_skeletonize_interior_amended`: the center
pixel of `img9` has 3 foreground neighbors and survives. -/
theorem c9_skeletonize_interior_amended_witness :
    img9.length = 3 * 3 ∧ img9.getD (1 * 3 + 1) 0 = 255 ∧
    fgNeighborCount img9 3 3 1 1 = 3 ∧
    (skeletonize img9 3 3).getD (1 * 3 + 1) 0 = 255 := by
  refine ⟨by decide, by decide, by decide, ?_⟩
  exact (c9_skeletonize_interior_amended img9 3 3 1 1 (by decide) (by decide)
    (by decide) (by decide) (by decide) (by decide)).mpr ⟨by decide, by decide⟩

/-- `findLineIntersections` (src/lib/road-analyzer.ts:286-300): all segment
pair hits between two polylines, scanning every consecutive-vertex
sub-segment pair in loop order. -/
def findLineIntersections (line1 line2 : List Pos) : List Pos :=
  (line1.zip line1.tail).flatMap (fun s1 =>
    (line2.zip line2.tail).filterMap (fun s2 =>
      lineSegmentIntersection s1.1 s1.2 s2.1 s2.2))

/-- `isPointOnSegment` (src/lib/road-analyzer.ts:364-383). -/
def isPointOnSegment (pt segStart segEnd : Pos) (tolerance : ℚ) : Bool :=
  let cross := |(pt.2 - segStart.2) * (segEnd.1 - segStart.1) -
                (pt.1 - segStart.1) * (segEnd.2 - segStart.2)|
  if cross > tolerance then false
  else
    let dot := (pt.1 - segStart.1) * (segEnd.1 - segStart.1) +
               (pt.2 - segStart.2) * (segEnd.2 - segStart.2)
    let squaredLength := (segEnd.1 - segStart.1) * (segEnd.1 - segStart.1) +
                         (segEnd.2 - segStart.2) * (segEnd.2 - segStart.2)
    if dot < -tolerance ∨ dot > squaredLength + tolerance then false else true

/-- The `alreadyExists` scan of `updateRoadWithIntersection`
(src/lib/road-analyzer.ts:348-350). -/
def existsNear (coords : List Pos) (pt : Pos) : Bool :=
  coords.any (fun c => decide (|c.1 - pt.1| < tol) && decide (|c.2 - pt.2| < tol))

/-- Index of the first sub-segment containing the intersection point
(the `for` scan with `break` of src/lib/road-analyzer.ts:341-357). -/
def segIdx (coords : List Pos) (pt : Pos) : Option ℕ :=
  (List.range (coords.length - 1)).find?
    (fun i => isPointOnSegment pt (coords.getD i (0, 0)) (coords.getD (i + 1) (0, 0)) tol)

/-- `coords.splice(i, 0, pt)`. -/
def spliceAt (l : List Pos) (i : ℕ) (pt : Pos) : List Pos :=
  l.take i ++ pt :: l.drop i

/-- `updateRoadWithIntersection` on a coordinate list: find the first
containing sub-segment; insert the point after its start vertex unless a
coordinate within tolerance already exists. -/
def updateRoadCoords (coords : List Pos) (pt : Pos) : List Pos :=
  match segIdx coords pt with
  | none => coords
  | some i => if existsNear coords pt then coords else spliceAt coords (i + 1) pt

/-- `updateRoadWithIntersection` on a feature (only `LineString` geometry is
ever passed; anything else is untouched). -/
def updateFeatureGeom (pt : Pos) (f : Feature) : Feature :=
  match f.geom with
  | Geometry.lineString c => { f with geom := Geometry.lineString (updateRoadCoords c pt) }
  | _ => f

/-- Floor of a rational, computed on the reduced fraction. -/
def qfloor (q : ℚ) : ℤ := Int.fdiv q.num q.den

/-- `toFixed(6)` as a dedup key: the coordinate rounded to 6 decimals
(round half up; tie behavior is irrelevant to the claims). -/
def jsRound6 (q : ℚ) : ℤ := qfloor (q * 1000000 + 1 / 2)

/-- The dedup key `lon.toFixed(6) + "," + lat.toFixed(6)`. -/
def key6 (p : Pos) : ℤ × ℤ := (jsRound6 p.1, jsRound6 p.2)

/-- The intersection point feature created at first sight of a key
(src/lib/road-analyzer.ts:245-255); it carries no `id`. -/
def mkIntersectionFeature (pt : Pos) (id1 id2 : Option ℤ) : Feature :=
  ⟨none, Geometry.point pt, true, [id1, id2]⟩

/-- The seen-key update (src/lib/road-analyzer.ts:258-264): push `road1.id`
if absent, then `road2.id` if (now) absent. -/
def addConnected (f : Feature) (id1 id2 : Option ℤ) : Feature :=
  let l1 := if id1 ∈ f.connectedRoads then f.connectedRoads else f.connectedRoads ++ [id1]
  let l2 := if id2 ∈ l1 then l1 else l1 ++ [id2]
  { f with connectedRoads := l2 }

/-- The `intersectionPoints : Map<string, Feature>` in insertion order. -/
abbrev PtMap := List ((ℤ × ℤ) × Feature)

/-- One `Map` update for a discovered intersection point. -/
def insertPt (m : PtMap) (pt : Pos) (id1 id2 : Option ℤ) : PtMap :=
  if (m.find? (fun e => decide (e.1 = key6 pt))).isSome then
    m.map (fun e => if e.1 = key6 pt then (e.1, addConnected e.2 id1 id2) else e)
  else m ++ [(key6 pt, mkIntersectionFeature pt id1 id2)]

/-- Replace the element at an index (identity when out of range). -/
def modifyIdx {α : Type _} (f : α → α) : ℕ → List α → List α
  | _, [] => []
  | 0, a :: l => f a :: l
  | n + 1, a :: l => a :: modifyIdx f n l

/-- The body of `intersections.forEach` (src/lib/road-analyzer.ts:241-270):
update the dedup map, then splice the point into both roads. -/
def ptStep (i j : ℕ) (id1 id2 : Option ℤ) (st : List Feature × PtMap) (pt : Pos) :
    List Feature × PtMap :=
  (modifyIdx (updateFeatureGeom pt) j (modifyIdx (updateFeatureGeom pt) i st.1),
   insertPt st.2 pt id1 id2)

/-- One `(i, j)` iteration of the pair loops: skipped unless both features
are `LineString`s; otherwise every found intersection is processed in
order. -/
def pairStep (st : List Feature × PtMap) (ij : ℕ × ℕ) : List Feature × PtMap :=
  match (st.1.getD ij.1 dummyFeature).geom, (st.1.getD ij.2 dummyFeature).geom with
  | Geometry.lineString c1, Geometry.lineString c2 =>
    (findLineIntersections c1 c2).foldl
      (ptStep ij.1 ij.2 (st.1.getD ij.1 dummyFeature).fid
        (st.1.getD ij.2 dummyFeature).fid) st
  | _, _ => st

/-- The loop index pairs `0 ≤ i < j < n` in lexicographic order. -/
def pairIndices (n : ℕ) : List (ℕ × ℕ) :=
  (List.range n).flatMap (fun i =>
    (List.range' (i + 1) (n - (i + 1))).map (fun j => (i, j)))

/-- `detectIntersections` (src/lib/road-analyzer.ts:225-281): run the pair
loops over the (mutating) feature array, then append the deduplicated
intersection point features in insertion order. -/
def detectIntersections (feats : List Feature) : List Feature :=
  let res := (pairIndices feats.length).foldl pairStep (feats, [])
  res.1 ++ res.2.map Prod.snd

/-- Fold invariant principle, with membership of the step element. -/
theorem foldl_inv_mem {σ α : Type _} {P : σ → Prop} (step : σ → α → σ) (l : List α)
    (hstep : ∀ s a, a ∈ l → P s → P (step s a)) (s : σ) (h : P s) :
    P (l.foldl step s) := by
  induction l generalizing s with
  | nil => exact h
  | cons a l ih =>
    exact ih (fun s b hb hs => hstep s b (List.mem_cons_of_mem a hb) hs) _
      (hstep s a (List.mem_cons_self a l) h)

/-- Geometry extension: a `LineString` may gain vertices (its old coordinate
list is a sublist of the new one); every other geometry is unchanged. -/
def GeomExt (g g' : Geometry) : Prop :=
  (∃ c c', g = Geometry.lineString c ∧ g' = Geometry.lineString c' ∧ c.Sublist c') ∨
  g = g'

theorem geomExt_refl (g : Geometry) : GeomExt g g := Or.inr rfl

theorem geomExt_trans {g1 g2 g3 : Geometry}
    (h12 : GeomExt g1 g2) (h23 : GeomExt g2 g3) : GeomExt g1 g3 := by
  rcases h23 with ⟨c2, c3, he2, he3, hs23⟩ | he
  · rcases h12 with ⟨c1, c2', he1, he2', hs12⟩ | he'
    · rw [he2] at he2'
      cases he2'
      exact Or.inl ⟨c1, c3, he1, he3, hs12.trans hs23⟩
    · rw [he']
      exact Or.inl ⟨c2, c3, he2, he3, hs23⟩
  · rw [← he]
    exact h12

/-- Frame relation between an input feature and its (possibly vertex-
extended) output: id and properties are untouched, geometry only extends. -/
def FeatExt (f f' : Feature) : Prop :=
  f'.fid = f.fid ∧ f'.isIntersection = f.isIntersection ∧
  f'.connectedRoads = f.connectedRoads ∧ GeomExt f.geom f'.geom

theorem featExt_refl (f : Feature) : FeatExt f f :=
  ⟨rfl, rfl, rfl, geomExt_refl f.geom⟩

theorem featExt_trans {f1 f2 f3 : Feature}
    (h12 : FeatExt f1 f2) (h23 : FeatExt f2 f3) : FeatExt f1 f3 :=
  ⟨h23.1.trans h12.1, h23.2.1.trans h12.2.1, h23.2.2.1.trans h12.2.2.1,
   geomExt_trans h12.2.2.2 h23.2.2.2⟩

/-- Splicing never loses or reorders coordinates. -/
theorem updateRoadCoords_sublist (coords : List Pos) (pt : Pos) :
    coords.Sublist (updateRoadCoords coords pt) := by
  unfold updateRoadCoords
  split
  · exact List.Sublist.refl _
  · next i heq =>
    split
    · exact List.Sublist.refl _
    · unfold spliceAt
      conv_lhs => rw [← List.take_append_drop (i + 1) coords]
      exact List.Sublist.append_left (List.sublist_cons_self _ _) _

/-- Splicing inserts at most one coordinate. -/
theorem updateRoadCoords_length (coords : List Pos) (pt : Pos) :
    (updateRoadCoords coords pt).length ≤ coords.length + 1 := by
  unfold updateRoadCoords
  split
  · exact Nat.le_succ _
  · next i heq =>
    split
    · exact Nat.le_succ _
    · unfold spliceAt
      rw [List.length_append, List.length_cons, List.length_take, List.length_drop]
      omega

/-- One splice call only extends the feature's geometry. -/
theorem updateFeatureGeom_ext (pt : Pos) (f : Feature) :
    FeatExt f (updateFeatureGeom pt f) := by
  obtain ⟨fid, geom, isInt, conn⟩ := f
  cases geom with
  | lineString c =>
    exact ⟨rfl, rfl, rfl,
      Or.inl ⟨c, updateRoadCoords c pt, rfl, rfl, updateRoadCoords_sublist c pt⟩⟩
  | point p => exact featExt_refl _
  | polygon r => exact featExt_refl _

/-- Pointwise reflexivity gives `Forall₂` reflexivity. -/
theorem forall2_refl {α : Type _} {R : α → α → Prop} (hR : ∀ a, R a a) :
    ∀ l : List α, List.Forall₂ R l l := by
  intro l
  induction l with
  | nil => exact List.Forall₂.nil
  | cons a l ih => exact List.Forall₂.cons (hR a) ih

/-- Modifying one index relates the list to itself pointwise. -/
theorem forall2_modifyIdx {α : Type _} {R : α → α → Prop} (hR : ∀ a, R a a)
    (f : α → α) (hf : ∀ a, R a (f a)) (k : ℕ) (l : List α) :
    List.Forall₂ R l (modifyIdx f k l) := by
  induction l generalizing k with
  | nil => cases k <;> exact List.Forall₂.nil
  | cons a l ih =>
    cases k with
    | zero => exact List.Forall₂.cons (hf a) (forall2_refl hR l)
    | succ k => exact List.Forall₂.cons (hR a) (ih k)

/-- `Forall₂` composes along a transitive relation. -/
theorem forall2_trans {α : Type _} {R : α → α → Prop}
    (hT : ∀ a b c, R a b → R b c → R a c) :
    ∀ {l1 l2 l3 : List α},
      List.Forall₂ R l1 l2 → List.Forall₂ R l2 l3 → List.Forall₂ R l1 l3 := by
  intro l1 l2 l3 h12
  induction h12 generalizing l3 with
  | nil => intro h23; cases h23; exact List.Forall₂.nil
  | cons hab h ih =>
    intro h23
    cases h23 with
    | cons hbc h' => exact List.Forall₂.cons (hT _ _ _ hab hbc) (ih h')

/-- One `intersections.forEach` body step preserves the frame relation on
the feature array. -/
theorem ptStep_ext (feats : List Feature) (i j : ℕ) (a b : Option ℤ)
    (st : List Feature × PtMap) (pt : Pos)
    (h : List.Forall₂ FeatExt feats st.1) :
    List.Forall₂ FeatExt feats (ptStep i j a b st pt).1 := by
  unfold ptStep
  refine forall2_trans (R := FeatExt) (fun a b c hab hbc => featExt_trans hab hbc)
    (forall2_trans (R := FeatExt) (fun a b c hab hbc => featExt_trans hab hbc) h
      (forall2_modifyIdx featExt_refl _ (updateFeatureGeom_ext pt) i st.1)) ?_
  exact forall2_modifyIdx featExt_refl _ (updateFeatureGeom_ext pt) j _

/-- One pair-loop iteration preserves the frame relation. -/
theorem pairStep_ext (feats : List Feature) (st : List Feature × PtMap)
    (ij : ℕ × ℕ) (h : List.Forall₂ FeatExt feats st.1) :
    List.Forall₂ FeatExt feats (pairStep st ij).1 := by
  unfold pairStep
  split
  · exact foldl_inv_mem (P := fun st' => List.Forall₂ FeatExt feats st'.1) _ _
      (fun s a _ hs => ptStep_ext feats _ _ _ _ s a hs) st h
  · exact h

/-- Every map entry is an intersection Point feature keyed by its own
rounded coordinate. -/
def MapPointInv (m : PtMap) : Prop :=
  ∀ e ∈ m, e.2.isIntersection = true ∧ ∃ q, e.2.geom = Geometry.point q ∧ e.1 = key6 q

/-- `addConnected` only touches `connectedRoads`. -/
theorem addConnected_fields (f : Feature) (id1 id2 : Option ℤ) :
    (addConnected f id1 id2).isIntersection = f.isIntersection ∧
    (addConnected f id1 id2).geom = f.geom ∧
    (addConnected f id1 id2).fid = f.fid := by
  unfold addConnected
  exact ⟨rfl, rfl, rfl⟩

/-- A `Map` update keeps every entry an intersection Point keyed by its
coordinate. -/
theorem insertPt_pointInv (m : PtMap) (pt : Pos) (id1 id2 : Option ℤ)
    (h : MapPointInv m) : MapPointInv (insertPt m pt id1 id2) := by
  unfold insertPt
  split
  · intro e he
    rw [List.mem_map] at he
    obtain ⟨e', he', rfl⟩ := he
    split
    · obtain ⟨h1, q, h2, h3⟩ := h e' he'
      exact ⟨(addConnected_fields e'.2 id1 id2).1.trans h1, q,
        (addConnected_fields e'.2 id1 id2).2.1.trans h2, h3⟩
    · exact h e' he'
  · intro e he
    rw [List.mem_append] at he
    rcases he with he | he
    · exact h e he
    · rw [List.mem_singleton] at he
      subst he
      exact ⟨rfl, pt, rfl, rfl⟩

/-- The joint loop invariant behind the frame claim: features only extend,
map entries are intersection Points. -/
def StInvFrame (feats : List Feature) (st : List Feature × PtMap) : Prop :=
  List.Forall₂ FeatExt feats st.1 ∧ MapPointInv st.2

theorem ptStep_invFrame (feats : List Feature) (i j : ℕ) (a b : Option ℤ)
    (st : List Feature × PtMap) (pt : Pos) (h : StInvFrame feats st) :
    StInvFrame feats (ptStep i j a b st pt) :=
  ⟨ptStep_ext feats i j a b st pt h.1, insertPt_pointInv st.2 pt a b h.2⟩

theorem pairStep_invFrame (feats : List Feature) (st : List Feature × PtMap)
    (ij : ℕ × ℕ) (h : StInvFrame feats st) : StInvFrame feats (pairStep st ij) := by
  unfold pairStep
  split
  · exact foldl_inv_mem (P := StInvFrame feats) _ _
      (fun s a _ hs => ptStep_invFrame feats _ _ _ _ s a hs) st h
  · exact h

/-- C10: the output of `detectIntersections` is the input features, in
order, with ids and properties untouched and `LineString` coordinate
sequences only extended (old coordinates a sublist of the new), followed by
the appended intersection Point features, each with
`properties.isIntersection = true`; and each splice call grows a road by at
most one coordinate. -/
theorem c10_detectIntersections_frame (feats : List Feature) :
    (∃ feats' pts, detectIntersections feats = feats' ++ pts ∧
      List.Forall₂ FeatExt feats feats' ∧
      ∀ p ∈ pts, p.isIntersection = true ∧ ∃ q, p.geom = Geometry.point q) ∧
    (∀ coords pt, coords.Sublist (updateRoadCoords coords pt) ∧
      (updateRoadCoords coords pt).length ≤ coords.length + 1) := by
  constructor
  · have hinv : StInvFrame feats
        ((pairIndices feats.length).foldl pairStep (feats, [])) :=
      foldl_inv_mem (P := StInvFrame feats) _ _
        (fun s a _ hs => pairStep_invFrame feats s a hs) _
        ⟨forall2_refl featExt_refl feats, fun e he => absurd he (List.not_mem_nil e)⟩
    refine ⟨((pairIndices feats.length).foldl pairStep (feats, [])).1,
      ((pairIndices feats.length).foldl pairStep (feats, [])).2.map Prod.snd,
      rfl, hinv.1, ?_⟩
    intro p hp
    rw [List.mem_map] at hp
    obtain ⟨e, he, rfl⟩ := hp
    obtain ⟨h1, q, h2, _⟩ := hinv.2 e he
    exact ⟨h1, q, h2⟩
  · exact fun coords pt =>
      ⟨updateRoadCoords_sublist coords pt, updateRoadCoords_length coords pt⟩

/-- Appending a fresh element preserves `Nodup`. -/
theorem nodup_append_singleton {α : Type _} {a : α} {l : List α}
    (h : l.Nodup) (ha : a ∉ l) : (l ++ [a]).Nodup := by
  simp [List.nodup_append, h, ha]

/-- `addConnected` preserves duplicate-freeness of `connectedRoads`: each of
the two pushes is guarded by an `includes` check. -/
theorem addConnected_nodup (f : Feature) (id1 id2 : Option ℤ)
    (h : f.connectedRoads.Nodup) : (addConnected f id1 id2).connectedRoads.Nodup := by
  unfold addConnected
  by_cases h1 : id1 ∈ f.connectedRoads
  · simp only [if_pos h1]
    by_cases h2 : id2 ∈ f.connectedRoads
    · simp only [if_pos h2]
      exact h
    · simp only [if_neg h2]
      exact nodup_append_singleton h h2
  · simp only [if_neg h1]
    by_cases h2 : id2 ∈ f.connectedRoads ++ [id1]
    · simp only [if_pos h2]
      exact nodup_append_singleton h h1
    · simp only [if_neg h2]
      exact nodup_append_singleton (nodup_append_singleton h h1) h2

/-- Keys of the map stay distinct and every `connectedRoads` list stays
duplicate-free. -/
def MapNodupInv (m : PtMap) : Prop :=
  (m.map Prod.fst).Nodup ∧ ∀ e ∈ m, e.2.connectedRoads.Nodup

/-- A `Map` update preserves `MapNodupInv`, provided the two ids of a
newly-created entry differ. -/
theorem insertPt_nodupInv (m : PtMap) (pt : Pos) (id1 id2 : Option ℤ)
    (hne : id1 ≠ id2) (h : MapNodupInv m) : MapNodupInv (insertPt m pt id1 id2) := by
  unfold insertPt
  split
  · constructor
    · have hmap : (m.map (fun e => if e.1 = key6 pt then
          (e.1, addConnected e.2 id1 id2) else e)).map Prod.fst = m.map Prod.fst := by
        rw [List.map_map]
        refine List.map_congr_left ?_
        intro e _
        by_cases he : e.1 = key6 pt <;> simp [he]
      rw [hmap]
      exact h.1
    · intro e he
      rw [List.mem_map] at he
      obtain ⟨e', he', rfl⟩ := he
      split
      · exact addConnected_nodup e'.2 id1 id2 (h.2 e' he')
      · exact h.2 e' he'
  · next hfind =>
    have hnotmem : key6 pt ∉ m.map Prod.fst := by
      intro hmem
      rw [List.mem_map] at hmem
      obtain ⟨e, he, hkey⟩ := hmem
      have hnone : m.find? (fun e => decide (e.1 = key6 pt)) = none := by
        rcases hf : m.find? (fun e => decide (e.1 = key6 pt)) with _ | v
        · exact hf
        · rw [hf] at hfind
          simp at hfind
      have := List.find?_eq_none.mp hnone e he
      simp only [decide_eq_true_eq] at this
      exact this hkey
    constructor
    · rw [List.map_append]
      exact nodup_append_singleton h.1 hnotmem
    · intro e he
      rw [List.mem_append] at he
      rcases he with he | he
      · exact h.2 e he
      · rw [List.mem_singleton] at he
        subst he
        simp [mkIntersectionFeature, hne]

/-- The pair loops visit exactly the indices `i < j < n`. -/
theorem pairIndices_mem (n i j : ℕ) (h : (i, j) ∈ pairIndices n) :
    i < j ∧ j < n := by
  unfold pairIndices at h
  rw [List.mem_flatMap] at h
  obtain ⟨i', hi', hj⟩ := h
  rw [List.mem_map] at hj
  obtain ⟨j', hj', heq⟩ := hj
  rw [List.mem_range] at hi'
  rw [List.mem_range'_1] at hj'
  cases heq
  omega

/-- The frame relation preserves every feature's id (pointwise, through
`getD`). -/
theorem forall2_featExt_fid (feats l : List Feature)
    (h : List.Forall₂ FeatExt feats l) (k : ℕ) :
    (l.getD k dummyFeature).fid = (feats.getD k dummyFeature).fid := by
  induction h generalizing k with
  | nil => rfl
  | cons hfe hrest ih =>
    cases k with
    | zero => exact hfe.1
    | succ k => exact ih k

/-- In a list with duplicate-free ids, features at distinct indices have
distinct ids. -/
theorem nodup_fid_getD_ne (feats : List Feature)
    (hid : (feats.map Feature.fid).Nodup) (i j : ℕ)
    (hi : i < feats.length) (hj : j < feats.length) (hij : i ≠ j) :
    (feats.getD i dummyFeature).fid ≠ (feats.getD j dummyFeature).fid := by
  intro heq
  rw [List.getD_eq_getElem feats dummyFeature hi,
    List.getD_eq_getElem feats dummyFeature hj] at heq
  have hi' : i < (feats.map Feature.fid).length := by simpa using hi
  have hj' : j < (feats.map Feature.fid).length := by simpa using hj
  have : (feats.map Feature.fid)[i] = (feats.map Feature.fid)[j] := by
    simpa using heq
  exact hij ((List.Nodup.getElem_inj_iff hid).mp this)

/-- The joint loop invariant behind the dedup claim. -/
def StInvDedup (feats : List Feature) (st : List Feature × PtMap) : Prop :=
  List.Forall₂ FeatExt feats st.1 ∧ MapPointInv st.2 ∧ MapNodupInv st.2

theorem ptStep_invDedup (feats : List Feature) (i j : ℕ) (a b : Option ℤ)
    (hne : a ≠ b) (st : List Feature × PtMap) (pt : Pos)
    (h : StInvDedup feats st) : StInvDedup feats (ptStep i j a b st pt) :=
  ⟨ptStep_ext feats i j a b st pt h.1, insertPt_pointInv st.2 pt a b h.2.1,
   insertPt_nodupInv st.2 pt a b hne h.2.2⟩

theorem pairStep_invDedup (feats : List Feature)
    (hid : (feats.map Feature.fid).Nodup) (st : List Feature × PtMap)
    (ij : ℕ × ℕ) (hij : ij ∈ pairIndices feats.length)
    (h : StInvDedup feats st) : StInvDedup feats (pairStep st ij) := by
  obtain ⟨hlt, hn⟩ := pairIndices_mem feats.length ij.1 ij.2 (by
    have : ij = (ij.1, ij.2) := rfl
    rw [← this]
    exact hij)
  have hne : (st.1.getD ij.1 dummyFeature).fid ≠ (st.1.getD ij.2 dummyFeature).fid := by
    rw [forall2_featExt_fid feats st.1 h.1 ij.1,
      forall2_featExt_fid feats st.1 h.1 ij.2]
    exact nodup_fid_getD_ne feats hid ij.1 ij.2 (by omega) hn (by omega)
  unfold pairStep
  split
  · exact foldl_inv_mem (P := StInvDedup feats) _ _
      (fun s a _ hs => ptStep_invDedup feats _ _ _ _ hne s a hs) st h
  · exact h

/-- The rounded-coordinate key of an intersection Point feature. -/
def featureKey (f : Feature) : ℤ × ℤ :=
  match f.geom with
  | Geometry.point q => key6 q
  | _ => (0, 0)

/-- C4 (amended): provided the input road features carry pairwise-distinct
ids, each rounded geographic location yields exactly one appended
IntersectionPoint feature (their keys are pairwise distinct), and every
`connectedRoads` list is duplicate-free.  The decomposition is pinned the
same way as in the frame theorem: `feats'` corresponds positionally to the
input (`Forall₂ FeatExt`), so `pts` is exactly the appended intersection
Point tail.  (Without the distinct-id proviso the creation step
`[road1.id, road2.id]` is not deduplicated — see `c4_counterexample`.) -/
theorem c4_dedup_amended (feats : List Feature)
    (hid : (feats.map Feature.fid).Nodup) :
    ∃ feats' pts, detectIntersections feats = feats' ++ pts ∧
      List.Forall₂ FeatExt feats feats' ∧
      (∀ p ∈ pts, p.isIntersection = true) ∧
      (pts.map featureKey).Nodup ∧ ∀ p ∈ pts, p.connectedRoads.Nodup := by
  have hinv : StInvDedup feats
      ((pairIndices feats.length).foldl pairStep (feats, [])) :=
    foldl_inv_mem (P := StInvDedup feats) _ _
      (fun s a ha hs => pairStep_invDedup feats hid s a ha hs) _
      ⟨forall2_refl featExt_refl feats,
       fun e he => absurd he (List.not_mem_nil e),
       List.Pairwise.nil, fun e he => absurd he (List.not_mem_nil e)⟩
  refine ⟨((pairIndices feats.length).foldl pairStep (feats, [])).1,
    ((pairIndices feats.length).foldl pairStep (feats, [])).2.map Prod.snd,
    rfl, hinv.1, ?_, ?_, ?_⟩
  · intro p hp
    rw [List.mem_map] at hp
    obtain ⟨e, he, rfl⟩ := hp
    exact (hinv.2.1 e he).1
  · have hkeys : (((pairIndices feats.length).foldl pairStep (feats, [])).2.map
        Prod.snd).map featureKey =
        ((pairIndices feats.length).foldl pairStep (feats, [])).2.map Prod.fst := by
      rw [List.map_map]
      refine List.map_congr_left ?_
      intro e he
      obtain ⟨_, q, hq, hk⟩ := hinv.2.1 e he
      show featureKey e.2 = e.1
      unfold featureKey
      rw [hq, hk]
    rw [hkeys]
    exact hinv.2.2.1
  · intro p hp
    rw [List.mem_map] at hp
    obtain ⟨e, he, rfl⟩ := hp
    exact hinv.2.2.2 e he

/-- The two crossing test roads with distinct ids. -/
def roadA : Feature := ⟨some 1, Geometry.lineString [(0, 0), (2, 2)], false, []⟩

/-- Second crossing test road. -/
def roadB : Feature := ⟨some 2, Geometry.lineString [(0, 2), (2, 0)], false, []⟩

/-- Concrete instantiation of `c4_dedup_amended` on the crossing roads. -/
theorem c4_dedup_amended_witness :
    ([roadA, roadB].map Feature.fid).Nodup ∧
    (∃ feats' pts, detectIntersections [roadA, roadB] = feats' ++ pts ∧
      List.Forall₂ FeatExt [roadA, roadB] feats' ∧
      (∀ p ∈ pts, p.isIntersection = true) ∧
      (pts.map featureKey).Nodup ∧ ∀ p ∈ pts, p.connectedRoads.Nodup) :=
  ⟨by decide, c4_dedup_amended [roadA, roadB] (by decide)⟩

/-- A copy of `roadB`'s geometry carrying `roadA`'s id. -/
def roadBdup : Feature := ⟨some 1, Geometry.lineString [(0, 2), (2, 0)], false, []⟩

/-- C4 counterexample: when two distinct crossing road features share the
id `1`, the created IntersectionPoint's `connectedRoads` is `[1, 1]` — the
creation step does not deduplicate the initial pair, so the claim's "no
duplicate ids" fails. -/
theorem c4_counterexample :
    (detectIntersections [roadA, roadBdup]).getD 2 dummyFeature =
      ⟨none, Geometry.point (1, 1), true, [some 1, some 1]⟩ ∧
    ¬ (((detectIntersections [roadA, roadBdup]).getD 2
        dummyFeature).connectedRoads.Nodup) := by
  constructor <;> decide

/-- `roadA` after the first run split it at the crossing. -/
def roadASplit : Feature :=
  ⟨some 1, Geometry.lineString [(0, 0), (1, 1), (2, 2)], false, []⟩

/-- `roadB` after the first run split it at the crossing. -/
def roadBSplit : Feature :=
  ⟨some 2, Geometry.lineString [(0, 2), (1, 1), (2, 0)], false, []⟩

/-- The intersection Point feature the builder creates at `(1,1)`. -/
def crossPt : Feature := ⟨none, Geometry.point (1, 1), true, [some 1, some 2]⟩

/-- C1 counterexample: on the canonical crossing roads, the second run of
`detectIntersections` re-discovers `(1,1)` (endpoint touches of the split
sub-segments) and appends a SECOND Point feature with the same 6-decimal
key, because the dedup map starts empty and is never seeded with the Point
features already present in the input.  The claimed "no duplicate point
features within 6-decimal rounding tolerance" therefore fails. -/
theorem c1_counterexample :
    detectIntersections (detectIntersections [roadA, roadB]) =
      [roadASplit, roadBSplit, crossPt, crossPt] ∧
    ¬ ((((detectIntersections (detectIntersections [roadA, roadB])).filter
      (fun f => f.isIntersection)).map featureKey).Nodup) := by
  constructor <;> decide

/-- C1 (amended): re-running the builder on its own output inserts no new
vertex into any road (the existing-coordinate tolerance check fires, so
both split road geometries pass through unchanged) and re-creates the same
intersection point, but appends it as a duplicate Point feature instead of
leaving the point set unchanged: the builder is idempotent on road
geometries but not on the point-feature list. -/
theorem c1_rerun_appends_duplicate :
    detectIntersections [roadA, roadB] = [roadASplit, roadBSplit, crossPt] ∧
    detectIntersections [roadASplit, roadBSplit, crossPt] =
      [roadASplit, roadBSplit, crossPt, crossPt] := by
  constructor <;> decide
